import Mathlib

/-!
Verification of the Chronoclust HDDStream online microcluster maintenance
engine (`src/chronoclust/hddstream.py`).

The orchestration code (`HDDStream`) is embedded from the source file.
The `Microcluster` summary structure lives in `chronoclust/helper_objects.py`,
which is not among the repository's source files; its operations are modelled
from the specification (spec.md §3, §4.1) and are marked as such in their
doc comments.

Numeric convention: the Python code computes over IEEE floats; the embedding
uses exact rationals (ℚ).  The two places this matters are
  * Euclidean projected distances: the code compares square-rooted distances
    only with `<`, so the embedding keeps the squared distance, which induces
    exactly the same comparisons;
  * the decay factor `2 ** (-lambda * interval)`: the embedding takes the
    base-2 power function as an explicit parameter `pow2 : ℚ → ℚ` of the
    orchestrator, instantiated at integer exponents (where the value is an
    exact rational) in all concrete runs.
-/

namespace Chronoclust

attribute [local semireducible] Rat.add Rat.mul Rat.inv Rat.sub

/-- Modelled from the spec (§3 data model): a microcluster is a decaying
statistical summary: set-valued identifier (embedded as a list, insertion
order kept), linear sum `CF1`, squared sum `CF2`, decayed count
`cumulative_weight`, the per-dimension preference vector, the transient
per-batch raw-point buffer, and the creation timestamp. -/
structure Microcluster where
  id : List Nat
  CF1 : List ℚ
  CF2 : List ℚ
  cumulative_weight : ℚ
  preferred_dimension_vector : List ℚ
  points : List (List ℚ)
  creation_time : ℤ
deriving Repr, DecidableEq

/-- A throwaway default microcluster, used only as the `List.getD` fallback at
indices that are always in range. -/
def mcDefault : Microcluster :=
  { id := [], CF1 := [], CF2 := [], cumulative_weight := 0,
    preferred_dimension_vector := [], points := [], creation_time := 0 }

instance : Inhabited Microcluster := ⟨mcDefault⟩

/-- Modelled from the spec (§4.1 `updatePreferredDimensions`): the
per-dimension variance of the summarised points, `CF2/w − (CF1/w)²`. -/
def Microcluster.variances (m : Microcluster) : List ℚ :=
  List.zipWith
    (fun s1 s2 => s2 / m.cumulative_weight - (s1 / m.cumulative_weight) ^ 2)
    m.CF1 m.CF2

/-- Modelled from the spec (§4.1 `addPoint`): add the point's contribution to
`CF1`, `CF2` and the weight (increment 1) and record the raw point in the
transient buffer; the preference vector is recomputed separately. -/
def Microcluster.add_new_point (m : Microcluster) (p : List ℚ) (_t : ℤ) :
    Microcluster :=
  { m with
    CF1 := List.zipWith (· + ·) m.CF1 p,
    CF2 := List.zipWith (fun a x => a + x ^ 2) m.CF2 p,
    cumulative_weight := m.cumulative_weight + 1,
    points := m.points ++ [p] }

/-- Modelled from the spec (§4.1 `updatePreferredDimensions`): a dimension is
preferred when its variance is at most the variance threshold.  A preferred
dimension is marked with the sentinel value `k` and a non-preferred one with
`1`: spec §4.1 fixes only that the sentinel differs from 1 and that the pdim
used against π is the count of sentinel entries, §9 requires the `≠ 1` and
`> 1` counts in `hddstream.py` (lines 294, 384, 467) to agree on the
encoding, and §4.2/glossary read that count as the number of preferred (low
variance) dimensions, so the sentinel marks the preferred dimensions and is
the configured `k` (with `1 < k` wherever the two counts must agree). -/
def Microcluster.update_preferred_dimensions (m : Microcluster)
    (delta_squared k : ℚ) : Microcluster :=
  { m with
    preferred_dimension_vector :=
      m.variances.map (fun v => if v ≤ delta_squared then k else 1) }

/-- The projected dimensionality as `_add_to_pcore` counts it
(`(vector != 1).sum()`, hddstream.py line 294): entries different from 1. -/
def Microcluster.pdim_ne_one (m : Microcluster) : Nat :=
  m.preferred_dimension_vector.countP (fun v => decide (v ≠ 1))

/-- The projected dimensionality as `_upgrade_outlier_microcluster` and
`_downgrade_potential_microclusters` count it (`(vector > 1).sum()`,
hddstream.py lines 384 and 467): entries greater than 1. -/
def Microcluster.pdim_gt_one (m : Microcluster) : Nat :=
  m.preferred_dimension_vector.countP (fun v => decide (1 < v))

/-- The per-dimension mean `CF1 / cumulative_weight` (spec §3). -/
def Microcluster.cluster_centroids (m : Microcluster) : List ℚ :=
  m.CF1.map (· / m.cumulative_weight)

/-- Modelled from the spec (§4.1 `projectedDistanceTo`): Euclidean distance
between centroid and point restricted to the preferred dimensions, the
non-preferred ones contributing 0.  Embedded as the squared distance: the code
only ever compares distances with `<`, and squaring is strictly monotone. -/
def Microcluster.get_projected_dist_to_point (m : Microcluster) (p : List ℚ) :
    ℚ :=
  (List.zipWith (fun w cp => if w = 1 then 0 else (cp.1 - cp.2) ^ 2)
    m.preferred_dimension_vector (m.cluster_centroids.zip p)).sum

/-- Modelled from the spec (§4.1 `projectedRadiusSquared`): the closed-form
second-moment projected radius, the sum of the per-dimension variances over
the preferred dimensions. -/
def Microcluster.calculate_projected_radius_squared (m : Microcluster) : ℚ :=
  (List.zipWith (fun w v => if w = 1 then 0 else v)
    m.preferred_dimension_vector m.variances).sum

/-- Modelled from the spec (§4.1 `copyWithPoint`): an independent clone with
the point tentatively merged and the preference vector recomputed; the
original is not touched (the embedding is functional, so this is literal). -/
def Microcluster.get_copy_with_new_point (m : Microcluster) (p : List ℚ)
    (delta_squared k : ℚ) : Microcluster :=
  Microcluster.update_preferred_dimensions
    { m with
      CF1 := List.zipWith (· + ·) m.CF1 p,
      CF2 := List.zipWith (fun a x => a + x ^ 2) m.CF2 p,
      cumulative_weight := m.cumulative_weight + 1 }
    delta_squared k

/-- Modelled from the spec (§4.1 `isCore`): weight at least the density
threshold, pdim at most the cap, projected radius squared at most ε². -/
def Microcluster.is_core (m : Microcluster)
    (radius_threshold_squared density_threshold : ℚ) (max_pdim : ℤ) : Bool :=
  decide (density_threshold ≤ m.cumulative_weight) &&
  decide ((m.pdim_ne_one : ℤ) ≤ max_pdim) &&
  decide (m.calculate_projected_radius_squared ≤ radius_threshold_squared)

/-- Modelled from the spec (§4.1 `resetPoints`): clear the transient raw-point
buffer only. -/
def Microcluster.reset_points (m : Microcluster) : Microcluster :=
  { m with points := [] }

/-- The configuration surface (hddstream.py `__init__`): ε, β, k, λ, δ and
the three raw multipliers π, μ, ω read from the config file. -/
structure Config where
  epsilon : ℚ
  beta : ℚ
  k : ℚ
  lambbda : ℚ
  delta : ℚ
  piCfg : ℚ
  muCfg : ℚ
  omicronCfg : ℚ
deriving Repr, DecidableEq

def Config.epsilon_squared (c : Config) : ℚ := c.epsilon ^ 2

def Config.delta_squared (c : Config) : ℚ := c.delta ^ 2

/-- A batch: a 2-d numeric array, rows = points, `cols` the second shape
component (the dataset dimensionality). -/
structure Dataset where
  rows : List (List ℚ)
  cols : Nat
deriving Repr, DecidableEq

/-- One record of the offline handoff payload
(`helper_objects.MicroclusterAsDatapoint` as `offline_clustering` builds it). -/
structure OfflineRecord where
  datapoint_dimension_values : List ℚ
  datapoint_id : Nat
  is_core_cluster : Bool
  cluster_CF1 : List ℚ
  cluster_CF2 : List ℚ
  cluster_cumulative_weight : ℚ
deriving Repr, DecidableEq

/-- The mutable state of an `HDDStream` object: the batch-derived thresholds,
the two microcluster collections, the last processed day-timestamp, the stored
dataset shape, and (standing in for `final_clusters`, whose computation is the
external PreDeCon collaborator) the offline handoff payload.  The Python
fields start as `None`; the embedding starts them at 0. -/
structure HState where
  pi : ℤ
  mu : ℚ
  omicron : ℚ
  pcore_MC : List Microcluster
  outlier_MC : List Microcluster
  last_data_timestamp : ℤ
  dataset_dimensionality : Nat
  dataset_size : Nat
  payload : List (Nat × OfflineRecord)
deriving Repr, DecidableEq

/-- The state `HDDStream.__init__` leaves behind. -/
def initState : HState :=
  { pi := 0, mu := 0, omicron := 0, pcore_MC := [], outlier_MC := [],
    last_data_timestamp := 0, dataset_dimensionality := 0, dataset_size := 0,
    payload := [] }

/-- Python's `int()` conversion on a rational: truncation toward zero
(hddstream.py line 99, `int(float(...))`). -/
def pyint (q : ℚ) : ℤ := if 0 ≤ q then ⌊q⌋ else ⌈q⌉

/-- `HDDStream._set_dataset_dependent_parameters` (lines 84-120): store the
dimensionality; set π (falling back to the dimensionality when the truncated
config value is ≤ 0); set ω from the multiplier times the stored
(previous-batch) dataset size; only then store the new batch size; and set μ
from the multiplier times the new size (`calculate_density_threshold`). -/
def set_dataset_dependent_parameters (cfg : Config) (s : HState)
    (input : Dataset) : HState :=
  let dim := input.cols
  let config_pi : ℤ := pyint cfg.piCfg
  let newPi : ℤ := if config_pi ≤ 0 then (dim : ℤ) else config_pi
  let newOmicron : ℚ := cfg.omicronCfg * (s.dataset_size : ℚ)
  let newSize : Nat := input.rows.length
  let newMu : ℚ := cfg.muCfg * (newSize : ℚ)
  { s with
    dataset_dimensionality := dim, pi := newPi, omicron := newOmicron,
    dataset_size := newSize, mu := newMu }

/-- `HDDStream.decay_a_cluster_weight` (lines 255-270): multiply `CF1`, `CF2`
and the weight by the decay factor. -/
def decay_a_cluster_weight (factor : ℚ) (m : Microcluster) : Microcluster :=
  { m with
    CF1 := m.CF1.map (· * factor),
    CF2 := m.CF2.map (· * factor),
    cumulative_weight := m.cumulative_weight * factor }

/-- `HDDStream._decay_clusters_weight` (lines 237-253): decay every
microcluster in both collections. -/
def decay_clusters_weight (factor : ℚ) (s : HState) : HState :=
  { s with
    pcore_MC := s.pcore_MC.map (decay_a_cluster_weight factor),
    outlier_MC := s.outlier_MC.map (decay_a_cluster_weight factor) }

/-- The loop of `_add_to_pcore` / `_add_to_outlier` (lines 286-303, 341-345):
scan the collection keeping the index of the first strictly-smallest projected
distance among the candidates `pass` admits.  `i0` is the index of the head of
the remaining list and `acc` the best `(distance, index)` so far. -/
def find_closest_aux (passf : Microcluster → Bool) (p : List ℚ) :
    List Microcluster → Nat → Option (ℚ × Nat) → Option (ℚ × Nat)
  | [], _, acc => acc
  | c :: rest, i, acc =>
      let acc2 :=
        if passf c then
          let d := c.get_projected_dist_to_point p
          match acc with
          | none => some (d, i)
          | some (bd, bi) => if d < bd then some (d, i) else some (bd, bi)
        else acc
      find_closest_aux passf p rest (i + 1) acc2

/-- The π pre-filter of `_add_to_pcore` (lines 292-296): the tentative clone's
pdim (counted as entries ≠ 1) must not exceed π. -/
def pcore_pass (cfg : Config) (s : HState) (p : List ℚ)
    (pmc : Microcluster) : Bool :=
  decide
    (((pmc.get_copy_with_new_point p cfg.delta_squared cfg.k).pdim_ne_one : ℤ)
      ≤ s.pi)

/-- The nearest-candidate search of `_add_to_pcore` over the potential-core
collection. -/
def pcore_closest (cfg : Config) (s : HState) (p : List ℚ) :
    Option (ℚ × Nat) :=
  find_closest_aux (pcore_pass cfg s p) p s.pcore_MC 0 none

/-- The nearest-candidate search of `_add_to_outlier` over the outlier
collection: no pre-filter. -/
def outlier_closest (s : HState) (p : List ℚ) : Option (ℚ × Nat) :=
  find_closest_aux (fun _ => true) p s.outlier_MC 0 none

/-- The radius feasibility check (lines 309-314, 352-357): the tentative
clone's projected radius squared must not exceed ε². -/
def radius_ok (cfg : Config) (c : Microcluster) (p : List ℚ) : Bool :=
  decide
    ((c.get_copy_with_new_point p cfg.delta_squared cfg.k).calculate_projected_radius_squared
      ≤ cfg.epsilon_squared)

/-- The commit step (lines 316-318, 358-360): `add_new_point` followed by
`update_preferred_dimensions` on the real microcluster. -/
def commit_point (cfg : Config) (c : Microcluster) (p : List ℚ) (t : ℤ) :
    Microcluster :=
  (c.add_new_point p t).update_preferred_dimensions cfg.delta_squared cfg.k

/-- `HDDStream._add_to_pcore` (lines 272-320). -/
def add_to_pcore (cfg : Config) (s : HState) (p : List ℚ) (t : ℤ) :
    HState × Bool :=
  match pcore_closest cfg s p with
  | none => (s, false)
  | some (_, i) =>
      if radius_ok cfg (s.pcore_MC.getD i mcDefault) p then
        ({ s with
            pcore_MC :=
              s.pcore_MC.set i
                (commit_point cfg (s.pcore_MC.getD i mcDefault) p t) },
          true)
      else (s, false)

/-- `HDDStream._upgrade_outlier_microcluster` (lines 368-390) acting on the
outlier at index `i`: when its weight is at least β·μ and its pdim (counted
as entries > 1) at most π, reassign its id to the next potential-core slot,
remove it from the outlier collection and append it to the potential-core
collection. -/
def upgrade_outlier_microcluster (cfg : Config) (s : HState) (i : Nat) :
    HState :=
  let omc := s.outlier_MC.getD i mcDefault
  if decide (cfg.beta * s.mu ≤ omc.cumulative_weight) &&
     decide ((omc.pdim_gt_one : ℤ) ≤ s.pi) then
    { s with
      outlier_MC := s.outlier_MC.eraseIdx i,
      pcore_MC := s.pcore_MC ++ [{ omc with id := [s.pcore_MC.length] }] }
  else s

/-- `HDDStream._add_to_outlier` (lines 322-366): nearest outlier, radius
check, commit, then the embedded upgrade check. -/
def add_to_outlier (cfg : Config) (s : HState) (p : List ℚ) (t : ℤ) :
    HState × Bool :=
  match outlier_closest s p with
  | none => (s, false)
  | some (_, i) =>
      if radius_ok cfg (s.outlier_MC.getD i mcDefault) p then
        let s2 :=
          { s with
            outlier_MC :=
              s.outlier_MC.set i
                (commit_point cfg (s.outlier_MC.getD i mcDefault) p t) }
        (upgrade_outlier_microcluster cfg s2 i, true)
      else (s, false)

/-- `HDDStream._create_new_outlier_cluster` (lines 392-409): a fresh
microcluster with id the current outlier-collection length, seeded with the
point via `add_new_point` + `update_preferred_dimensions`, appended to the
outlier collection. -/
def create_new_outlier_cluster (cfg : Config) (s : HState) (p : List ℚ)
    (t : ℤ) : HState :=
  let base : Microcluster :=
    { id := [s.outlier_MC.length],
      CF1 := List.replicate p.length 0, CF2 := List.replicate p.length 0,
      cumulative_weight := 0, preferred_dimension_vector := [], points := [],
      creation_time := t }
  let omc :=
    (base.add_new_point p t).update_preferred_dimensions cfg.delta_squared
      cfg.k
  { s with outlier_MC := s.outlier_MC ++ [omc] }

/-- The per-point routing of `online_microcluster_maintenance` (lines
210-227): try the potential-core collection, then the outlier collection,
then create a new outlier microcluster. -/
def route_point (cfg : Config) (s : HState) (p : List ℚ) (t : ℤ) : HState :=
  let r1 := add_to_pcore cfg s p t
  if r1.2 then r1.1
  else
    let r2 := add_to_outlier cfg r1.1 p t
    if r2.2 then r2.1
    else create_new_outlier_cluster cfg r2.1 p t

/-- The routing loop over a batch, in the batch's natural order. -/
def route_batch (cfg : Config) (s : HState) (rows : List (List ℚ)) (t : ℤ) :
    HState :=
  rows.foldl (fun st p => route_point cfg st p t) s

/-- `HDDStream._downgrade_potential_microclusters` (lines 458-474), with
Python's `for`-loop-with-`remove` semantics embedded faithfully: when the
element under the iteration index is moved, the next element is skipped
(the iterator's index still advances past the shifted list).  The first
component is what remains of the potential-core list, the second the outlier
list with the moved microclusters (ids reassigned to the outlier-collection
length at the moment of the move) appended. -/
def downgrade_potential_aux (cfg : Config) (mu : ℚ) (pi : ℤ) :
    List Microcluster → List Microcluster →
      List Microcluster × List Microcluster
  | [], outlier => ([], outlier)
  | a :: tail, outlier =>
      if decide (a.cumulative_weight < cfg.beta * mu) ||
         decide ((pi : ℤ) < (a.pdim_gt_one : ℤ)) then
        let moved := { a with id := [outlier.length] }
        match tail with
        | [] => ([], outlier ++ [moved])
        | b :: rest =>
            let next := downgrade_potential_aux cfg mu pi rest
              (outlier ++ [moved])
            (b :: next.1, next.2)
      else
        let next := downgrade_potential_aux cfg mu pi tail outlier
        (a :: next.1, next.2)

/-- `HDDStream._downgrade_outlier_microclusters` (lines 476-484), with the
same `for`-loop-with-`remove` semantics: delete outliers whose weight is at
most ω, the element after a deleted one being skipped. -/
def downgrade_outlier_aux (omicron : ℚ) :
    List Microcluster → List Microcluster
  | [] => []
  | a :: tail =>
      if decide (a.cumulative_weight ≤ omicron) then
        match tail with
        | [] => []
        | b :: rest => b :: downgrade_outlier_aux omicron rest
      else a :: downgrade_outlier_aux omicron tail

/-- `HDDStream.downgrade_microclusters` (lines 454-456): the potential-core
downgrade pass followed by the outlier deletion pass. -/
def downgrade_microclusters (cfg : Config) (s : HState) : HState :=
  let r := downgrade_potential_aux cfg s.mu s.pi s.pcore_MC s.outlier_MC
  { s with
    pcore_MC := r.1,
    outlier_MC := downgrade_outlier_aux s.omicron r.2 }

/-- The decayed-day block of `online_microcluster_maintenance` (lines
189-203): decay both collections by `2 ** (-λ·interval)` with
`interval = daystamp - last_data_timestamp`, run both downgrade passes, then
reset every microcluster's transient point buffer. -/
def decay_downgrade_reset (cfg : Config) (pow2 : ℚ → ℚ) (s : HState)
    (daystamp : ℤ) : HState :=
  let interval : ℤ := daystamp - s.last_data_timestamp
  let factor := pow2 (-(cfg.lambbda * (interval : ℚ)))
  let sB := downgrade_microclusters cfg (decay_clusters_weight factor s)
  { sB with
    pcore_MC := sB.pcore_MC.map Microcluster.reset_points,
    outlier_MC := sB.outlier_MC.map Microcluster.reset_points }

/-- The record `offline_clustering` (lines 421-438) emits for one
potential-core microcluster: centroid, id, the microcluster's own `is_core`
verdict against ε², μ and π, `CF1`, `CF2` and the cumulative weight. -/
def offline_record (cfg : Config) (s : HState) (c : Microcluster) :
    OfflineRecord :=
  { datapoint_dimension_values := c.cluster_centroids,
    datapoint_id := c.id.headD 0,
    is_core_cluster := c.is_core cfg.epsilon_squared s.mu s.pi,
    cluster_CF1 := c.CF1, cluster_CF2 := c.CF2,
    cluster_cumulative_weight := c.cumulative_weight }

/-- Insertion into a Python dict rendered as an association list: an existing
key's value is overwritten in place, a new key is appended. -/
def dictInsert (d : List (Nat × OfflineRecord)) (key : Nat)
    (v : OfflineRecord) : List (Nat × OfflineRecord) :=
  if d.any (fun kv => kv.1 == key) then
    d.map (fun kv => if kv.1 == key then (key, v) else kv)
  else d ++ [(key, v)]

/-- The `datapoints` dict `offline_clustering` hands to the offline PreDeCon
step, keyed by `next(iter(cluster.id))` (the first element of the id). -/
def offline_datapoints (cfg : Config) (s : HState) :
    List (Nat × OfflineRecord) :=
  s.pcore_MC.foldl
    (fun d c => dictInsert d (c.id.headD 0) (offline_record cfg s c)) []

/-- `HDDStream.offline_clustering` (lines 411-452): build the handoff payload
from the potential-core collection.  The PreDeCon run on it is the external
collaborator and is out of scope; the payload it is handed is stored. -/
def offline_clustering (cfg : Config) (s : HState) : HState :=
  { s with payload := offline_datapoints cfg s }

/-- `HDDStream.online_microcluster_maintenance` (lines 158-235): optionally
reset the dataset-dependent parameters, run the decay-and-downgrade block
exactly when the daystamp differs from the last processed one, route every
point of the batch in order, record the daystamp, and hand off to the offline
step. -/
def online_microcluster_maintenance (cfg : Config) (pow2 : ℚ → ℚ)
    (s : HState) (input : Dataset) (daystamp : ℤ) (reset_param : Bool) :
    HState :=
  let s1 := if reset_param then set_dataset_dependent_parameters cfg s input
            else s
  let s2 := if s1.last_data_timestamp - daystamp ≠ 0 then
      decay_downgrade_reset cfg pow2 s1 daystamp
    else s1
  let s3 := route_batch cfg s2 input.rows daystamp
  offline_clustering cfg { s3 with last_data_timestamp := daystamp }

/-! ### Properties of the nearest-candidate scan -/

lemma find_closest_aux_nil (passf : Microcluster → Bool) (p : List ℚ)
    (i : Nat) (acc : Option (ℚ × Nat)) :
    find_closest_aux passf p [] i acc = acc := rfl

lemma find_closest_aux_cons (passf : Microcluster → Bool) (p : List ℚ)
    (c : Microcluster) (rest : List Microcluster) (i : Nat)
    (acc : Option (ℚ × Nat)) :
    find_closest_aux passf p (c :: rest) i acc =
      find_closest_aux passf p rest (i + 1)
        (if passf c then
          match acc with
          | none => some (c.get_projected_dist_to_point p, i)
          | some (bd, bi) =>
              if c.get_projected_dist_to_point p < bd then
                some (c.get_projected_dist_to_point p, i)
              else some (bd, bi)
        else acc) := rfl

/-- Once the scan holds a best candidate it always reports one. -/
lemma find_closest_aux_isSome (passf : Microcluster → Bool) (p : List ℚ) :
    ∀ (l : List Microcluster) (i : Nat) (x : ℚ × Nat),
      ∃ y, find_closest_aux passf p l i (some x) = some y := by
  intro l
  induction l with
  | nil => exact fun i x => ⟨x, rfl⟩
  | cons c rest ih =>
      intro i x
      rw [find_closest_aux_cons]
      by_cases hc : passf c = true
      · rcases x with ⟨bd, bi⟩
        by_cases hlt : c.get_projected_dist_to_point p < bd
        · simpa [hc, hlt] using ih (i + 1) _
        · simpa [hc, hlt] using ih (i + 1) _
      · simpa [hc] using ih (i + 1) x

/-- The scan reports no candidate exactly when no element passes the
filter. -/
lemma find_closest_aux_none_iff (passf : Microcluster → Bool) (p : List ℚ) :
    ∀ (l : List Microcluster) (i : Nat),
      find_closest_aux passf p l i none = none ↔ ∀ c ∈ l, passf c = false := by
  intro l
  induction l with
  | nil => intro i; simp [find_closest_aux_nil]
  | cons c rest ih =>
      intro i
      rw [find_closest_aux_cons]
      by_cases hc : passf c = true
      · obtain ⟨y, hy⟩ := find_closest_aux_isSome passf p rest (i + 1)
          (c.get_projected_dist_to_point p, i)
        simp only [hc, if_true]
        constructor
        · intro h
          rw [hy] at h
          cases h
        · intro h
          exact absurd hc (by simpa using h c (List.mem_cons_self c rest))
      · rw [Bool.not_eq_true] at hc
        simp only [hc, Bool.false_eq_true, if_false, ih (i + 1),
          List.forall_mem_cons]
        simp [hc]

/-- What the scan guarantees when started with a best candidate `(bd, bi)`
taken at an index `bi` before the remaining list: the reported distance never
exceeds `bd`; the winner is either the accumulator unchanged or a passing
element of the list that strictly beats it; the winner's distance is minimal
among passing elements; and every passing element strictly before the winner
is strictly beaten (first-seen tie-break). -/
lemma find_closest_aux_acc_spec (passf : Microcluster → Bool) (p : List ℚ) :
    ∀ (l : List Microcluster) (i0 : Nat) (bd : ℚ) (bi : Nat), bi < i0 →
      ∀ d i, find_closest_aux passf p l i0 (some (bd, bi)) = some (d, i) →
        d ≤ bd ∧
        ((d = bd ∧ i = bi) ∨
          (i0 ≤ i ∧ i - i0 < l.length ∧
            passf (l.getD (i - i0) mcDefault) = true ∧
            d = (l.getD (i - i0) mcDefault).get_projected_dist_to_point p ∧
            d < bd)) ∧
        (∀ j, j < l.length → passf (l.getD j mcDefault) = true →
          d ≤ (l.getD j mcDefault).get_projected_dist_to_point p) ∧
        (∀ j, j < l.length → i0 + j < i →
          passf (l.getD j mcDefault) = true →
          d < (l.getD j mcDefault).get_projected_dist_to_point p) := by
  intro l
  induction l with
  | nil =>
      intro i0 bd bi hbi d i h
      rw [find_closest_aux_nil] at h
      obtain ⟨rfl, rfl⟩ : bd = d ∧ bi = i := by
        constructor <;> [exact congrArg Prod.fst (Option.some.inj h);
          exact congrArg Prod.snd (Option.some.inj h)]
      refine ⟨le_refl _, Or.inl ⟨rfl, rfl⟩, ?_, ?_⟩ <;> intro j hj <;>
        exact absurd hj (Nat.not_lt_zero j)
  | cons c rest ih =>
      intro i0 bd bi hbi d i h
      rw [find_closest_aux_cons] at h
      by_cases hc : passf c = true
      · by_cases hlt : c.get_projected_dist_to_point p < bd
        · simp only [hc, if_true, hlt] at h
          obtain ⟨hdb, hdisj, hmin, hstrict⟩ :=
            ih (i0 + 1) (c.get_projected_dist_to_point p) i0
              (Nat.lt_succ_self i0) d i h
          have hdbd : d < bd := lt_of_le_of_lt hdb hlt
          refine ⟨le_of_lt hdbd, ?_, ?_, ?_⟩
          · rcases hdisj with ⟨hdc, hii0⟩ | ⟨hle, hlen, hpass, hdist, _⟩
            · refine Or.inr ⟨le_of_eq hii0.symm, ?_, ?_, ?_, hdbd⟩
              · simp [hii0]
              · simpa [hii0] using hc
              · simpa [hii0] using hdc
            · refine Or.inr ⟨le_trans (Nat.le_succ i0) hle, ?_, ?_, ?_, hdbd⟩
              · have : i - i0 = (i - (i0 + 1)) + 1 := by omega
                simpa [this] using Nat.succ_lt_succ hlen
              · have : i - i0 = (i - (i0 + 1)) + 1 := by omega
                simpa [this] using hpass
              · have : i - i0 = (i - (i0 + 1)) + 1 := by omega
                simpa [this] using hdist
          · intro j hj hpj
            cases j with
            | zero => simpa using hdb
            | succ j' =>
                exact hmin j' (Nat.lt_of_succ_lt_succ hj) (by simpa using hpj)
          · intro j hj hji hpj
            cases j with
            | zero =>
                rcases hdisj with ⟨_, hii0⟩ | ⟨_, _, _, _, hdlt⟩
                · omega
                · simpa using hdlt
            | succ j' =>
                refine hstrict j' (Nat.lt_of_succ_lt_succ hj) (by omega)
                  (by simpa using hpj)
        · simp only [hc, if_true, hlt] at h
          obtain ⟨hdb, hdisj, hmin, hstrict⟩ :=
            ih (i0 + 1) bd bi (Nat.lt_succ_of_lt hbi) d i h
          have hbdc : bd ≤ c.get_projected_dist_to_point p := le_of_not_lt hlt
          refine ⟨hdb, ?_, ?_, ?_⟩
          · rcases hdisj with hA | ⟨hle, hlen, hpass, hdist, hdlt⟩
            · exact Or.inl hA
            · refine Or.inr ⟨le_trans (Nat.le_succ i0) hle, ?_, ?_, ?_, hdlt⟩
              · have : i - i0 = (i - (i0 + 1)) + 1 := by omega
                simpa [this] using Nat.succ_lt_succ hlen
              · have : i - i0 = (i - (i0 + 1)) + 1 := by omega
                simpa [this] using hpass
              · have : i - i0 = (i - (i0 + 1)) + 1 := by omega
                simpa [this] using hdist
          · intro j hj hpj
            cases j with
            | zero => simpa using le_trans hdb hbdc
            | succ j' =>
                exact hmin j' (Nat.lt_of_succ_lt_succ hj) (by simpa using hpj)
          · intro j hj hji hpj
            cases j with
            | zero =>
                rcases hdisj with ⟨_, hii0⟩ | ⟨_, _, _, _, hdlt⟩
                · omega
                · simpa using lt_of_lt_of_le hdlt hbdc
            | succ j' =>
                refine hstrict j' (Nat.lt_of_succ_lt_succ hj) (by omega)
                  (by simpa using hpj)
      · rw [Bool.not_eq_true] at hc
        simp only [hc, Bool.false_eq_true, if_false] at h
        obtain ⟨hdb, hdisj, hmin, hstrict⟩ :=
          ih (i0 + 1) bd bi (Nat.lt_succ_of_lt hbi) d i h
        refine ⟨hdb, ?_, ?_, ?_⟩
        · rcases hdisj with hA | ⟨hle, hlen, hpass, hdist, hdlt⟩
          · exact Or.inl hA
          · refine Or.inr ⟨le_trans (Nat.le_succ i0) hle, ?_, ?_, ?_, hdlt⟩
            · have : i - i0 = (i - (i0 + 1)) + 1 := by omega
              simpa [this] using Nat.succ_lt_succ hlen
            · have : i - i0 = (i - (i0 + 1)) + 1 := by omega
              simpa [this] using hpass
            · have : i - i0 = (i - (i0 + 1)) + 1 := by omega
              simpa [this] using hdist
        · intro j hj hpj
          cases j with
          | zero => rw [List.getD_cons_zero] at hpj; rw [hc] at hpj; cases hpj
          | succ j' =>
              exact hmin j' (Nat.lt_of_succ_lt_succ hj) (by simpa using hpj)
        · intro j hj hji hpj
          cases j with
          | zero => rw [List.getD_cons_zero] at hpj; rw [hc] at hpj; cases hpj
          | succ j' =>
              refine hstrict j' (Nat.lt_of_succ_lt_succ hj) (by omega)
                (by simpa using hpj)

/-- The scan started empty: a reported winner is a passing element of the
list, at the stated offset, carrying its own distance, minimal over all
passing elements, and strictly smaller than every passing element seen
before it. -/
lemma find_closest_aux_spec (passf : Microcluster → Bool) (p : List ℚ) :
    ∀ (l : List Microcluster) (i0 : Nat) (d : ℚ) (i : Nat),
      find_closest_aux passf p l i0 none = some (d, i) →
        i0 ≤ i ∧ i - i0 < l.length ∧
        passf (l.getD (i - i0) mcDefault) = true ∧
        d = (l.getD (i - i0) mcDefault).get_projected_dist_to_point p ∧
        (∀ j, j < l.length → passf (l.getD j mcDefault) = true →
          d ≤ (l.getD j mcDefault).get_projected_dist_to_point p) ∧
        (∀ j, j < l.length → i0 + j < i →
          passf (l.getD j mcDefault) = true →
          d < (l.getD j mcDefault).get_projected_dist_to_point p) := by
  intro l
  induction l with
  | nil =>
      intro i0 d i h
      rw [find_closest_aux_nil] at h
      cases h
  | cons c rest ih =>
      intro i0 d i h
      rw [find_closest_aux_cons] at h
      by_cases hc : passf c = true
      · simp only [hc, if_true] at h
        obtain ⟨hdb, hdisj, hmin, hstrict⟩ :=
          find_closest_aux_acc_spec passf p rest (i0 + 1)
            (c.get_projected_dist_to_point p) i0 (Nat.lt_succ_self i0) d i h
        rcases hdisj with ⟨hdc, hii0⟩ | ⟨hle, hlen, hpass, hdist, hdlt⟩
        · subst hii0
          refine ⟨le_refl i, by simp, by simpa using hc, by simpa using hdc,
            ?_, ?_⟩
          · intro j hj hpj
            cases j with
            | zero => simpa using hdb
            | succ j' =>
                exact hmin j' (Nat.lt_of_succ_lt_succ hj) (by simpa using hpj)
          · intro j hj hji hpj
            cases j with
            | zero => omega
            | succ j' => omega
        · have hio : i0 ≤ i := le_trans (Nat.le_succ i0) hle
          have hsub : i - i0 = (i - (i0 + 1)) + 1 := by omega
          refine ⟨hio, ?_, ?_, ?_, ?_, ?_⟩
          · simpa [hsub] using Nat.succ_lt_succ hlen
          · simpa [hsub] using hpass
          · simpa [hsub] using hdist
          · intro j hj hpj
            cases j with
            | zero => simpa using hdb
            | succ j' =>
                exact hmin j' (Nat.lt_of_succ_lt_succ hj) (by simpa using hpj)
          · intro j hj hji hpj
            cases j with
            | zero => simpa using hdlt
            | succ j' =>
                refine hstrict j' (Nat.lt_of_succ_lt_succ hj) (by omega)
                  (by simpa using hpj)
      · rw [Bool.not_eq_true] at hc
        simp only [hc, Bool.false_eq_true, if_false] at h
        obtain ⟨hio, hlen, hpass, hdist, hmin, hstrict⟩ := ih (i0 + 1) d i h
        have hio0 : i0 ≤ i := le_trans (Nat.le_succ i0) hio
        have hsub : i - i0 = (i - (i0 + 1)) + 1 := by omega
        refine ⟨hio0, ?_, ?_, ?_, ?_, ?_⟩
        · simpa [hsub] using Nat.succ_lt_succ hlen
        · simpa [hsub] using hpass
        · simpa [hsub] using hdist
        · intro j hj hpj
          cases j with
          | zero => rw [List.getD_cons_zero] at hpj; rw [hc] at hpj; cases hpj
          | succ j' =>
              exact hmin j' (Nat.lt_of_succ_lt_succ hj) (by simpa using hpj)
        · intro j hj hji hpj
          cases j with
          | zero => rw [List.getD_cons_zero] at hpj; rw [hc] at hpj; cases hpj
          | succ j' =>
              refine hstrict j' (Nat.lt_of_succ_lt_succ hj) (by omega)
                (by simpa using hpj)

/-! ### C1: two-phase assignment commits exactly the chosen candidate -/

lemma add_to_pcore_of_none (cfg : Config) (s : HState) (p : List ℚ) (t : ℤ)
    (h : pcore_closest cfg s p = none) :
    add_to_pcore cfg s p t = (s, false) := by
  unfold add_to_pcore
  rw [h]

lemma add_to_pcore_of_some (cfg : Config) (s : HState) (p : List ℚ) (t : ℤ)
    (d : ℚ) (i : Nat) (h : pcore_closest cfg s p = some (d, i)) :
    add_to_pcore cfg s p t =
      (if radius_ok cfg (s.pcore_MC.getD i mcDefault) p then
        ({ s with pcore_MC := s.pcore_MC.set i (commit_point cfg (s.pcore_MC.getD i mcDefault) p t) }, true)
      else (s, false)) := by
  unfold add_to_pcore
  rw [h]

lemma add_to_outlier_of_none (cfg : Config) (s : HState) (p : List ℚ) (t : ℤ)
    (h : outlier_closest s p = none) :
    add_to_outlier cfg s p t = (s, false) := by
  unfold add_to_outlier
  rw [h]

lemma add_to_outlier_of_some (cfg : Config) (s : HState) (p : List ℚ)
    (t : ℤ) (d : ℚ) (i : Nat) (h : outlier_closest s p = some (d, i)) :
    add_to_outlier cfg s p t =
      (if radius_ok cfg (s.outlier_MC.getD i mcDefault) p then
        (upgrade_outlier_microcluster cfg
          { s with outlier_MC := s.outlier_MC.set i (commit_point cfg (s.outlier_MC.getD i mcDefault) p t) } i,
          true)
      else (s, false)) := by
  unfold add_to_outlier
  rw [h]

/-- C1: for a single-point assignment against either collection, the
assignment reports success exactly when a nearest surviving candidate exists
and its tentative clone's projected radius squared is within ε²; on failure
the state is completely unchanged; and on success exactly the chosen
candidate is mutated, by `add_new_point` followed by
`update_preferred_dimensions` (the outlier path then running only the
embedded upgrade check on that same microcluster). -/
theorem claim_C1 (cfg : Config) (s : HState) (p : List ℚ) (t : ℤ) :
    (((add_to_pcore cfg s p t).2 = true) ↔
      ∃ d i, pcore_closest cfg s p = some (d, i) ∧
        radius_ok cfg (s.pcore_MC.getD i mcDefault) p = true) ∧
    ((add_to_pcore cfg s p t).2 = false → (add_to_pcore cfg s p t).1 = s) ∧
    (∀ d i, pcore_closest cfg s p = some (d, i) →
      radius_ok cfg (s.pcore_MC.getD i mcDefault) p = true →
      (add_to_pcore cfg s p t).1 =
        { s with pcore_MC := s.pcore_MC.set i (commit_point cfg (s.pcore_MC.getD i mcDefault) p t) }) ∧
    (((add_to_outlier cfg s p t).2 = true) ↔
      ∃ d i, outlier_closest s p = some (d, i) ∧
        radius_ok cfg (s.outlier_MC.getD i mcDefault) p = true) ∧
    ((add_to_outlier cfg s p t).2 = false → (add_to_outlier cfg s p t).1 = s) ∧
    (∀ d i, outlier_closest s p = some (d, i) →
      radius_ok cfg (s.outlier_MC.getD i mcDefault) p = true →
      (add_to_outlier cfg s p t).1 =
        upgrade_outlier_microcluster cfg
          { s with outlier_MC := s.outlier_MC.set i (commit_point cfg (s.outlier_MC.getD i mcDefault) p t) } i) := by
  refine ⟨?_, ?_, ?_, ?_, ?_, ?_⟩
  · rcases hP : pcore_closest cfg s p with _ | ⟨d, i⟩
    · rw [add_to_pcore_of_none cfg s p t hP]
      constructor
      · intro h; cases h
      · rintro ⟨d2, i2, hsome, _⟩; cases hsome
    · rw [add_to_pcore_of_some cfg s p t d i hP]
      by_cases hR : radius_ok cfg (s.pcore_MC.getD i mcDefault) p = true
      · rw [if_pos hR]
        exact ⟨fun _ => ⟨d, i, rfl, hR⟩, fun _ => rfl⟩
      · rw [if_neg hR]
        constructor
        · intro h; cases h
        · rintro ⟨d2, i2, hsome, hR2⟩
          obtain ⟨rfl, rfl⟩ : d = d2 ∧ i = i2 := by
            have := Option.some.inj hsome
            exact ⟨congrArg Prod.fst this, congrArg Prod.snd this⟩
          exact absurd hR2 hR
  · rcases hP : pcore_closest cfg s p with _ | ⟨d, i⟩
    · rw [add_to_pcore_of_none cfg s p t hP]
      exact fun _ => rfl
    · rw [add_to_pcore_of_some cfg s p t d i hP]
      by_cases hR : radius_ok cfg (s.pcore_MC.getD i mcDefault) p = true
      · rw [if_pos hR]; intro h; cases h
      · rw [if_neg hR]; exact fun _ => rfl
  · intro d i hsome hR
    rw [add_to_pcore_of_some cfg s p t d i hsome, if_pos hR]
  · rcases hP : outlier_closest s p with _ | ⟨d, i⟩
    · rw [add_to_outlier_of_none cfg s p t hP]
      constructor
      · intro h; cases h
      · rintro ⟨d2, i2, hsome, _⟩; cases hsome
    · rw [add_to_outlier_of_some cfg s p t d i hP]
      by_cases hR : radius_ok cfg (s.outlier_MC.getD i mcDefault) p = true
      · rw [if_pos hR]
        exact ⟨fun _ => ⟨d, i, rfl, hR⟩, fun _ => rfl⟩
      · rw [if_neg hR]
        constructor
        · intro h; cases h
        · rintro ⟨d2, i2, hsome, hR2⟩
          obtain ⟨rfl, rfl⟩ : d = d2 ∧ i = i2 := by
            have := Option.some.inj hsome
            exact ⟨congrArg Prod.fst this, congrArg Prod.snd this⟩
          exact absurd hR2 hR
  · rcases hP : outlier_closest s p with _ | ⟨d, i⟩
    · rw [add_to_outlier_of_none cfg s p t hP]
      exact fun _ => rfl
    · rw [add_to_outlier_of_some cfg s p t d i hP]
      by_cases hR : radius_ok cfg (s.outlier_MC.getD i mcDefault) p = true
      · rw [if_pos hR]; intro h; cases h
      · rw [if_neg hR]; exact fun _ => rfl
  · intro d i hsome hR
    rw [add_to_outlier_of_some cfg s p t d i hsome, if_pos hR]

/-! ### C2 and C3: the downgrade passes remove elements of the list they
iterate over, so the element after a removed one is skipped -/

/-- A configuration for the downgrade failing inputs (β = 1 and the rest
immaterial to the downgrade passes). -/
def cfgBug : Config :=
  { epsilon := 1, beta := 1, k := 2, lambbda := 1, delta := 1/2,
    piCfg := 2, muCfg := 1, omicronCfg := 1 }

/-- A one-dimensional microcluster with the given weight and id, preference
vector `[2]`. -/
def mcW (w : ℚ) (n : Nat) : Microcluster :=
  { id := [n], CF1 := [0], CF2 := [0], cumulative_weight := w,
    preferred_dimension_vector := [2], points := [], creation_time := 0 }

/-- Failing input for C2: two outlier microclusters, both with weight 0 ≤ ω =
1. -/
def stC2 : HState :=
  { pi := 2, mu := 1, omicron := 1, pcore_MC := [],
    outlier_MC := [mcW 0 0, mcW 0 1], last_data_timestamp := 0,
    dataset_dimensionality := 1, dataset_size := 2, payload := [] }

/-- C2 fails on the code: with two consecutive outliers both at weight ≤ ω,
the deletion pass (`_downgrade_outlier_microclusters`) removes the first
while iterating over the same list, so the iterator skips the second, which
survives the pass even though its weight is ≤ ω. -/
theorem claim_C2_code_bug :
    (downgrade_microclusters cfgBug stC2).outlier_MC = [mcW 0 1] ∧
    (mcW 0 1).cumulative_weight ≤ stC2.omicron := by decide

/-- Failing input for C3: two potential-core microclusters, both with weight
0 < β·μ = 1 (ω is −1 so the subsequent deletion pass removes nothing). -/
def stC3 : HState :=
  { pi := 2, mu := 1, omicron := -1, pcore_MC := [mcW 0 0, mcW 0 1],
    outlier_MC := [], last_data_timestamp := 0,
    dataset_dimensionality := 1, dataset_size := 2, payload := [] }

/-- C3 fails on the code: with two consecutive potential-core microclusters
both below β·μ, the downgrade pass (`_downgrade_potential_microclusters`)
moves the first and skips the second, which stays in the potential-core
collection even though its weight is below β·μ; only the first is moved to
the outlier collection (with reassigned id `[0]`). -/
theorem claim_C3_code_bug :
    (downgrade_microclusters cfgBug stC3).pcore_MC = [mcW 0 1] ∧
    (downgrade_microclusters cfgBug stC3).outlier_MC = [{ mcW 0 0 with id := [0] }] ∧
    (mcW 0 1).cumulative_weight < cfgBug.beta * stC3.mu := by decide

/-! ### C4: collection structure of routing, downgrades and deletions -/

/-- The deletion pass only ever removes elements: its result is a sublist of
its input. -/
lemma downgrade_outlier_aux_sublist (om : ℚ) :
    ∀ l : List Microcluster, (downgrade_outlier_aux om l).Sublist l := by
  intro l
  induction l using downgrade_outlier_aux.induct om with
  | case1 => exact List.Sublist.refl _
  | case2 b h =>
      rw [downgrade_outlier_aux.eq_def]
      simp only [h, if_true]
      exact List.nil_sublist _
  | case3 b h b1 rest ih =>
      rw [downgrade_outlier_aux.eq_def]
      simp only [h, if_true]
      exact (ih.cons₂ b1).cons b
  | case4 b rest h ih =>
      rw [downgrade_outlier_aux.eq_def]
      simp only [if_neg h]
      exact ih.cons₂ b

/-- The potential-core downgrade pass keeps a sublist of the potential-core
collection in place, appends the moved elements to the outlier collection,
and conserves the total count. -/
lemma downgrade_potential_aux_spec (cfg : Config) (mu : ℚ) (pi : ℤ) :
    ∀ (l out : List Microcluster),
      (downgrade_potential_aux cfg mu pi l out).1.Sublist l ∧
      ∃ moved, (downgrade_potential_aux cfg mu pi l out).2 = out ++ moved ∧
        (downgrade_potential_aux cfg mu pi l out).1.length + moved.length =
          l.length := by
  intro l out
  induction l, out using downgrade_potential_aux.induct cfg mu pi with
  | case1 out =>
      rw [downgrade_potential_aux.eq_def]
      exact ⟨List.Sublist.refl _, [], by simp⟩
  | case2 a out h =>
      rw [downgrade_potential_aux.eq_def]
      simp only [h, if_true]
      exact ⟨List.nil_sublist _, [{ a with id := [out.length] }], rfl, by simp⟩
  | case3 a out h mvd b rest ih =>
      rw [downgrade_potential_aux.eq_def]
      simp only [h, if_true]
      obtain ⟨hsub, moved, hout, hlen⟩ := ih
      have hm : mvd = { a with id := [out.length] } := rfl
      rw [hm] at hout hlen
      refine ⟨(hsub.cons₂ b).cons a, { a with id := [out.length] } :: moved,
        ?_, ?_⟩
      · simpa using hout
      · simp only [List.length_cons]
        omega
  | case4 a tail out h ih =>
      rw [downgrade_potential_aux.eq_def]
      simp only [if_neg h]
      obtain ⟨hsub, moved, hout, hlen⟩ := ih
      refine ⟨hsub.cons₂ a, moved, hout, ?_⟩
      simp only [List.length_cons]
      omega

lemma route_point_eq (cfg : Config) (s : HState) (p : List ℚ) (t : ℤ) :
    route_point cfg s p t =
      (if (add_to_pcore cfg s p t).2 = true then (add_to_pcore cfg s p t).1
       else if (add_to_outlier cfg (add_to_pcore cfg s p t).1 p t).2 = true
       then (add_to_outlier cfg (add_to_pcore cfg s p t).1 p t).1
       else create_new_outlier_cluster cfg
         (add_to_outlier cfg (add_to_pcore cfg s p t).1 p t).1 p t) := rfl

/-- Every way one point can be routed: mutate one potential-core in place,
mutate one outlier in place, move one (mutated, re-identified) outlier to the
end of the potential-core collection, or append one brand-new outlier. -/
lemma route_point_cases (cfg : Config) (s : HState) (p : List ℚ) (t : ℤ) :
    (∃ i c2, route_point cfg s p t =
        { s with pcore_MC := s.pcore_MC.set i c2 }) ∨
    (∃ i c2, route_point cfg s p t =
        { s with outlier_MC := s.outlier_MC.set i c2 }) ∨
    (∃ i c2 c3, route_point cfg s p t =
        { s with pcore_MC := s.pcore_MC ++ [c3],
                 outlier_MC := (s.outlier_MC.set i c2).eraseIdx i }) ∨
    (∃ c0, route_point cfg s p t =
        { s with outlier_MC := s.outlier_MC ++ [c0] }) := by
  rw [route_point_eq]
  rcases hP : pcore_closest cfg s p with _ | ⟨dP, iP⟩
  · rw [add_to_pcore_of_none cfg s p t hP]
    simp only [Bool.false_eq_true, if_false]
    rcases hO : outlier_closest s p with _ | ⟨dO, iO⟩
    · rw [add_to_outlier_of_none cfg s p t hO]
      simp only [Bool.false_eq_true, if_false]
      exact Or.inr (Or.inr (Or.inr ⟨_, rfl⟩))
    · by_cases hR : radius_ok cfg (s.outlier_MC.getD iO mcDefault) p = true
      · rw [add_to_outlier_of_some cfg s p t dO iO hO, if_pos hR]
        simp only [if_true]
        unfold upgrade_outlier_microcluster
        by_cases hU : (decide (cfg.beta *
              ({ s with outlier_MC := s.outlier_MC.set iO (commit_point cfg (s.outlier_MC.getD iO mcDefault) p t) } : HState).mu ≤
              (({ s with outlier_MC := s.outlier_MC.set iO (commit_point cfg (s.outlier_MC.getD iO mcDefault) p t) } : HState).outlier_MC.getD iO mcDefault).cumulative_weight) &&
            decide (((({ s with outlier_MC := s.outlier_MC.set iO (commit_point cfg (s.outlier_MC.getD iO mcDefault) p t) } : HState).outlier_MC.getD iO mcDefault).pdim_gt_one : ℤ) ≤
              ({ s with outlier_MC := s.outlier_MC.set iO (commit_point cfg (s.outlier_MC.getD iO mcDefault) p t) } : HState).pi)) = true
        · rw [if_pos hU]
          exact Or.inr (Or.inr (Or.inl ⟨iO, _, _, rfl⟩))
        · rw [if_neg hU]
          exact Or.inr (Or.inl ⟨iO, _, rfl⟩)
      · rw [add_to_outlier_of_some cfg s p t dO iO hO, if_neg hR]
        simp only [Bool.false_eq_true, if_false]
        exact Or.inr (Or.inr (Or.inr ⟨_, rfl⟩))
  · by_cases hR : radius_ok cfg (s.pcore_MC.getD iP mcDefault) p = true
    · rw [add_to_pcore_of_some cfg s p t dP iP hP, if_pos hR]
      simp only [if_true]
      exact Or.inl ⟨iP, _, rfl⟩
    · rw [add_to_pcore_of_some cfg s p t dP iP hP, if_neg hR]
      simp only [Bool.false_eq_true, if_false]
      rcases hO : outlier_closest s p with _ | ⟨dO, iO⟩
      · rw [add_to_outlier_of_none cfg s p t hO]
        simp only [Bool.false_eq_true, if_false]
        exact Or.inr (Or.inr (Or.inr ⟨_, rfl⟩))
      · by_cases hR2 : radius_ok cfg (s.outlier_MC.getD iO mcDefault) p = true
        · rw [add_to_outlier_of_some cfg s p t dO iO hO, if_pos hR2]
          simp only [if_true]
          unfold upgrade_outlier_microcluster
          by_cases hU : (decide (cfg.beta *
                ({ s with outlier_MC := s.outlier_MC.set iO (commit_point cfg (s.outlier_MC.getD iO mcDefault) p t) } : HState).mu ≤
                (({ s with outlier_MC := s.outlier_MC.set iO (commit_point cfg (s.outlier_MC.getD iO mcDefault) p t) } : HState).outlier_MC.getD iO mcDefault).cumulative_weight) &&
              decide (((({ s with outlier_MC := s.outlier_MC.set iO (commit_point cfg (s.outlier_MC.getD iO mcDefault) p t) } : HState).outlier_MC.getD iO mcDefault).pdim_gt_one : ℤ) ≤
                ({ s with outlier_MC := s.outlier_MC.set iO (commit_point cfg (s.outlier_MC.getD iO mcDefault) p t) } : HState).pi)) = true
          · rw [if_pos hU]
            exact Or.inr (Or.inr (Or.inl ⟨iO, _, _, rfl⟩))
          · rw [if_neg hU]
            exact Or.inr (Or.inl ⟨iO, _, rfl⟩)
        · rw [add_to_outlier_of_some cfg s p t dO iO hO, if_neg hR2]
          simp only [Bool.false_eq_true, if_false]
          exact Or.inr (Or.inr (Or.inr ⟨_, rfl⟩))

/-- C4 (amended): the identifier sets of the two collections can intersect
(see the counterexample), but no operation ever duplicates a microcluster or
drops one outside the deletion pass: routing one point either mutates one
element of one collection in place, moves one mutated outlier to the end of
the potential-core collection, or appends one brand-new outlier; the
downgrade pass keeps a sublist of the potential-core collection, appends
exactly the moved microclusters to the outlier collection and conserves the
total count; and the deletion pass only removes outliers. -/
theorem claim_C4 (cfg : Config) (s : HState) (p : List ℚ) (t : ℤ) :
    ((∃ i c2, route_point cfg s p t =
        { s with pcore_MC := s.pcore_MC.set i c2 }) ∨
     (∃ i c2, route_point cfg s p t =
        { s with outlier_MC := s.outlier_MC.set i c2 }) ∨
     (∃ i c2 c3, route_point cfg s p t =
        { s with pcore_MC := s.pcore_MC ++ [c3],
                 outlier_MC := (s.outlier_MC.set i c2).eraseIdx i }) ∨
     (∃ c0, route_point cfg s p t =
        { s with outlier_MC := s.outlier_MC ++ [c0] })) ∧
    (∀ (l out : List Microcluster),
      (downgrade_potential_aux cfg s.mu s.pi l out).1.Sublist l ∧
      ∃ moved,
        (downgrade_potential_aux cfg s.mu s.pi l out).2 = out ++ moved ∧
        (downgrade_potential_aux cfg s.mu s.pi l out).1.length +
          moved.length = l.length) ∧
    (∀ l : List Microcluster,
      (downgrade_outlier_aux s.omicron l).Sublist l) :=
  ⟨route_point_cases cfg s p t,
   fun l out => downgrade_potential_aux_spec cfg s.mu s.pi l out,
   fun l => downgrade_outlier_aux_sublist s.omicron l⟩

/-- Configuration for the C4 counterexample run: ε = 1/10, β = 1, k = 2,
λ = 1, δ = 1/2, π = 2, μ-multiplier 1/2, ω-multiplier 0. -/
def cfgC4 : Config :=
  { epsilon := 1/10, beta := 1, k := 2, lambbda := 1, delta := 1/2,
    piCfg := 2, muCfg := 1/2, omicronCfg := 0 }

/-- The base-2 power function at the only exponent the runs below reach:
`2^(-1) = 1/2` exactly. -/
def pow2half : ℚ → ℚ := fun x => if x = -1 then 1/2 else 1

/-- The C4 counterexample batch: `[0,0]` twice (creates an outlier that is
then upgraded, taking potential-core id 0 and leaving the outlier collection
empty) and then the far point `[2,1]` (fails both assignments and becomes a
brand-new outlier whose positional id is again 0). -/
def dsC4 : Dataset := { rows := [[0, 0], [0, 0], [2, 1]], cols := 2 }

/-- C4 fails on the code as stated: after one reachable batch (day 0 from
the freshly initialised state) the potential-core collection and the outlier
collection each hold one microcluster with identifier `[0]`, so the
intersection of the two identifier sets is not empty. -/
theorem claim_C4_counterexample :
    ((online_microcluster_maintenance cfgC4 pow2half initState dsC4 0
        true).pcore_MC.map Microcluster.id) = [[0]] ∧
    ((online_microcluster_maintenance cfgC4 pow2half initState dsC4 0
        true).outlier_MC.map Microcluster.id) = [[0]] := by decide

/-! ### C5: the decay-and-downgrade block runs exactly on a day change -/

lemma maintenance_eq (cfg : Config) (pow2 : ℚ → ℚ) (s : HState)
    (input : Dataset) (d : ℤ) (rp : Bool) :
    online_microcluster_maintenance cfg pow2 s input d rp =
      offline_clustering cfg
        { route_batch cfg
            (if (if rp then set_dataset_dependent_parameters cfg s input
                  else s).last_data_timestamp - d ≠ 0 then
              decay_downgrade_reset cfg pow2
                (if rp then set_dataset_dependent_parameters cfg s input
                 else s) d
            else (if rp then set_dataset_dependent_parameters cfg s input
                  else s))
            input.rows d with
          last_data_timestamp := d } := rfl

lemma set_params_last (cfg : Config) (s : HState) (input : Dataset) :
    (set_dataset_dependent_parameters cfg s input).last_data_timestamp =
      s.last_data_timestamp := rfl

lemma maintenance_last (cfg : Config) (pow2 : ℚ → ℚ) (s : HState)
    (input : Dataset) (d : ℤ) (rp : Bool) :
    (online_microcluster_maintenance cfg pow2 s input d rp).last_data_timestamp
      = d := rfl

/-- The same-day form of a maintenance call: the decay-and-downgrade block is
skipped and the call only routes the batch, records the daystamp and hands
off. -/
lemma maintenance_same_day (cfg : Config) (pow2 : ℚ → ℚ) (s : HState)
    (input : Dataset) (d : ℤ) (rp : Bool)
    (h : (if rp then set_dataset_dependent_parameters cfg s input
          else s).last_data_timestamp = d) :
    online_microcluster_maintenance cfg pow2 s input d rp =
      offline_clustering cfg
        { route_batch cfg
            (if rp then set_dataset_dependent_parameters cfg s input else s)
            input.rows d with
          last_data_timestamp := d } := by
  rw [maintenance_eq, h, sub_self]
  rw [if_neg (by simp)]

/-- The day-change form of a maintenance call: the decay-and-downgrade block
runs exactly once, before the routing. -/
lemma maintenance_new_day (cfg : Config) (pow2 : ℚ → ℚ) (s : HState)
    (input : Dataset) (d : ℤ) (rp : Bool)
    (h : (if rp then set_dataset_dependent_parameters cfg s input
          else s).last_data_timestamp ≠ d) :
    online_microcluster_maintenance cfg pow2 s input d rp =
      offline_clustering cfg
        { route_batch cfg
            (decay_downgrade_reset cfg pow2
              (if rp then set_dataset_dependent_parameters cfg s input
               else s) d)
            input.rows d with
          last_data_timestamp := d } := by
  rw [maintenance_eq]
  rw [if_pos (by omega)]

/-- C5: the decay-and-downgrade block (decay both collections by the
`pow2`-image of −λ·interval with interval = daystamp − last processed
daystamp, run both downgrade passes, then reset every transient point
buffer — all packaged in `decay_downgrade_reset`) runs exactly when the new
daystamp differs from the last processed one; the call always records the new
daystamp; and therefore a repeated call at the same daystamp — with any
batch, including an empty one — skips the entire block. -/
theorem claim_C5 (cfg : Config) (pow2 : ℚ → ℚ) (s : HState) (input : Dataset)
    (d : ℤ) (rp : Bool) :
    (((if rp then set_dataset_dependent_parameters cfg s input
        else s).last_data_timestamp = d) →
      online_microcluster_maintenance cfg pow2 s input d rp =
        offline_clustering cfg
          { route_batch cfg
              (if rp then set_dataset_dependent_parameters cfg s input
               else s) input.rows d with
            last_data_timestamp := d }) ∧
    (((if rp then set_dataset_dependent_parameters cfg s input
        else s).last_data_timestamp ≠ d) →
      online_microcluster_maintenance cfg pow2 s input d rp =
        offline_clustering cfg
          { route_batch cfg
              (decay_downgrade_reset cfg pow2
                (if rp then set_dataset_dependent_parameters cfg s input
                 else s) d)
              input.rows d with
            last_data_timestamp := d }) ∧
    ((online_microcluster_maintenance cfg pow2 s input d
        rp).last_data_timestamp = d) ∧
    (∀ (pow2b : ℚ → ℚ) (input2 : Dataset) (rp2 : Bool),
      online_microcluster_maintenance cfg pow2b
          (online_microcluster_maintenance cfg pow2 s input d rp) input2 d
          rp2 =
        offline_clustering cfg
          { route_batch cfg
              (if rp2 then
                set_dataset_dependent_parameters cfg
                  (online_microcluster_maintenance cfg pow2 s input d rp)
                  input2
               else online_microcluster_maintenance cfg pow2 s input d rp)
              input2.rows d with
            last_data_timestamp := d }) := by
  refine ⟨maintenance_same_day cfg pow2 s input d rp,
    maintenance_new_day cfg pow2 s input d rp,
    maintenance_last cfg pow2 s input d rp, ?_⟩
  intro pow2b input2 rp2
  refine maintenance_same_day cfg pow2b _ input2 d rp2 ?_
  cases rp2 <;> rfl

/-! ### C6: the embedded upgrade check after a successful outlier
assignment -/

/-- A freshly recomputed preference vector only holds the sentinel `k` and
`1`. -/
lemma update_preferred_dimensions_mem (m : Microcluster) (ds k : ℚ) :
    ∀ v ∈ (m.update_preferred_dimensions ds k).preferred_dimension_vector,
      v = k ∨ v = 1 := by
  intro v hv
  simp only [Microcluster.update_preferred_dimensions, List.mem_map] at hv
  obtain ⟨x, _, hx⟩ := hv
  by_cases h : x ≤ ds
  · exact Or.inl (by rw [← hx]; simp [h])
  · exact Or.inr (by rw [← hx]; simp [h])

/-- On a list whose entries are all `k` or `1`, with `1 < k`, the `> 1`
count and the `≠ 1` count agree. -/
lemma countP_gt_one_eq_countP_ne_one (k : ℚ) (hk : 1 < k) :
    ∀ l : List ℚ, (∀ v ∈ l, v = k ∨ v = 1) →
      l.countP (fun v => decide (1 < v)) =
        l.countP (fun v => decide (v ≠ 1)) := by
  intro l
  induction l with
  | nil => intro _; rfl
  | cons a l ih =>
      intro h
      rw [List.countP_cons, List.countP_cons,
        ih (fun v hv => h v (List.mem_cons_of_mem a hv))]
      rcases h a (List.mem_cons_self a l) with rfl | rfl
      · simp [hk, ne_of_gt hk]
      · simp

/-- The committed microcluster's two pdim counts agree whenever `1 < k`. -/
lemma commit_point_pdim_eq (cfg : Config) (c : Microcluster) (p : List ℚ)
    (t : ℤ) (hk : 1 < cfg.k) :
    (commit_point cfg c p t).pdim_gt_one =
      (commit_point cfg c p t).pdim_ne_one :=
  countP_gt_one_eq_countP_ne_one cfg.k hk _
    (update_preferred_dimensions_mem _ _ _)

/-- C6: immediately after a successful assignment of a point to an outlier
microcluster, that microcluster is upgraded exactly when its new cumulative
weight is at least β·μ (inclusive) and its preferred-dimension count is at
most π; on upgrade it leaves the outlier collection and is appended to the
potential-core collection with identifier reassigned to the next
potential-core slot, and otherwise both collections keep their membership
(only the assigned outlier having been mutated in place). -/
theorem claim_C6 (cfg : Config) (s : HState) (p : List ℚ) (t : ℤ) (d : ℚ)
    (i : Nat) (hk : 1 < cfg.k)
    (hC : outlier_closest s p = some (d, i))
    (hR : radius_ok cfg (s.outlier_MC.getD i mcDefault) p = true) :
    ((add_to_outlier cfg s p t).2 = true) ∧
    (if cfg.beta * s.mu ≤
          (commit_point cfg (s.outlier_MC.getD i mcDefault) p t).cumulative_weight ∧
        ((commit_point cfg (s.outlier_MC.getD i mcDefault) p t).pdim_ne_one : ℤ) ≤ s.pi then
      (add_to_outlier cfg s p t).1.pcore_MC =
        s.pcore_MC ++
          [{ commit_point cfg (s.outlier_MC.getD i mcDefault) p t with
              id := [s.pcore_MC.length] }] ∧
      (add_to_outlier cfg s p t).1.outlier_MC =
        (s.outlier_MC.set i
          (commit_point cfg (s.outlier_MC.getD i mcDefault) p t)).eraseIdx i
    else
      (add_to_outlier cfg s p t).1.pcore_MC = s.pcore_MC ∧
      (add_to_outlier cfg s p t).1.outlier_MC =
        s.outlier_MC.set i
          (commit_point cfg (s.outlier_MC.getD i mcDefault) p t)) := by
  have hlen : i < s.outlier_MC.length := by
    have := (find_closest_aux_spec (fun _ => true) p s.outlier_MC 0 d i
      hC).2.1
    simpa using this
  have hgetD :
      ((s.outlier_MC.set i
          (commit_point cfg (s.outlier_MC.getD i mcDefault) p t)).getD i
        mcDefault) =
        commit_point cfg (s.outlier_MC.getD i mcDefault) p t := by
    rw [List.getD_eq_getElem?_getD, List.getElem?_set_self (by simpa using hlen)]
    rfl
  rw [add_to_outlier_of_some cfg s p t d i hC, if_pos hR]
  refine ⟨rfl, ?_⟩
  unfold upgrade_outlier_microcluster
  rw [hgetD]
  by_cases hcond : cfg.beta * s.mu ≤
      (commit_point cfg (s.outlier_MC.getD i mcDefault) p t).cumulative_weight ∧
      ((commit_point cfg (s.outlier_MC.getD i mcDefault) p t).pdim_ne_one : ℤ) ≤ s.pi
  · rw [if_pos hcond]
    have hbool : (decide (cfg.beta * s.mu ≤
          (commit_point cfg (s.outlier_MC.getD i mcDefault) p t).cumulative_weight) &&
        decide (((commit_point cfg (s.outlier_MC.getD i mcDefault) p t).pdim_gt_one : ℤ) ≤ s.pi)) = true := by
      rw [commit_point_pdim_eq cfg _ p t hk]
      simp only [Bool.and_eq_true, decide_eq_true_eq]
      exact hcond
    rw [if_pos hbool]
    exact ⟨rfl, rfl⟩
  · rw [if_neg hcond]
    have hbool : ¬ ((decide (cfg.beta * s.mu ≤
          (commit_point cfg (s.outlier_MC.getD i mcDefault) p t).cumulative_weight) &&
        decide (((commit_point cfg (s.outlier_MC.getD i mcDefault) p t).pdim_gt_one : ℤ) ≤ s.pi)) = true) := by
      rw [commit_point_pdim_eq cfg _ p t hk]
      simp only [Bool.and_eq_true, decide_eq_true_eq]
      exact hcond
    rw [if_neg hbool]
    exact ⟨rfl, rfl⟩

/-- A concrete outlier microcluster holding the single point `[0,0]`. -/
def mcW6 : Microcluster :=
  { id := [0], CF1 := [0, 0], CF2 := [0, 0], cumulative_weight := 1,
    preferred_dimension_vector := [2, 2], points := [[0, 0]],
    creation_time := 0 }

/-- A concrete state for the C6 witness: one outlier, μ = 1, π = 2. -/
def stW6 : HState :=
  { pi := 2, mu := 1, omicron := 0, pcore_MC := [], outlier_MC := [mcW6],
    last_data_timestamp := 0, dataset_dimensionality := 2, dataset_size := 2,
    payload := [] }

/-- Witness for C6 at a concrete input: the point `[0,0]` is assigned to the
single outlier and the upgrade fires. -/
theorem claim_C6_witness :
    (add_to_outlier cfgC4 stW6 [0, 0] 0).2 = true :=
  (claim_C6 cfgC4 stW6 [0, 0] 0 0 0 (by decide) (by decide) (by decide)).1

/-! ### C7: candidate selection, π pre-filter, first-seen tie-break -/

/-- C7: when assigning to the potential-core collection only candidates
passing the π pre-filter (tentative clone's pdim at most π) compete, the
winner passes the filter, carries the minimum projected distance from the
original unmerged microcluster to the point among all passing candidates,
and strictly beats every passing candidate seen before it (ties go to the
first-seen); no winner is reported exactly when no candidate passes.  The
outlier collection competes with no pre-filter under the same
minimum-distance, first-seen rule, reporting no winner exactly when it is
empty. -/
theorem claim_C7 (cfg : Config) (s : HState) (p : List ℚ) :
    (∀ d i, pcore_closest cfg s p = some (d, i) →
      i < s.pcore_MC.length ∧
      pcore_pass cfg s p (s.pcore_MC.getD i mcDefault) = true ∧
      d = (s.pcore_MC.getD i mcDefault).get_projected_dist_to_point p ∧
      (∀ j, j < s.pcore_MC.length →
        pcore_pass cfg s p (s.pcore_MC.getD j mcDefault) = true →
        d ≤ (s.pcore_MC.getD j mcDefault).get_projected_dist_to_point p) ∧
      (∀ j, j < i →
        pcore_pass cfg s p (s.pcore_MC.getD j mcDefault) = true →
        d < (s.pcore_MC.getD j mcDefault).get_projected_dist_to_point p)) ∧
    (pcore_closest cfg s p = none ↔
      ∀ c ∈ s.pcore_MC, pcore_pass cfg s p c = false) ∧
    (∀ d i, outlier_closest s p = some (d, i) →
      i < s.outlier_MC.length ∧
      d = (s.outlier_MC.getD i mcDefault).get_projected_dist_to_point p ∧
      (∀ j, j < s.outlier_MC.length →
        d ≤ (s.outlier_MC.getD j mcDefault).get_projected_dist_to_point p) ∧
      (∀ j, j < i →
        d < (s.outlier_MC.getD j mcDefault).get_projected_dist_to_point p)) ∧
    (outlier_closest s p = none ↔ s.outlier_MC = []) := by
  refine ⟨?_, ?_, ?_, ?_⟩
  · intro d i h
    obtain ⟨-, hlen, hpass, hdist, hmin, hstrict⟩ :=
      find_closest_aux_spec (pcore_pass cfg s p) p s.pcore_MC 0 d i h
    rw [Nat.sub_zero] at hlen hpass hdist
    refine ⟨hlen, hpass, hdist, fun j hj hpj => hmin j hj hpj,
      fun j hj hpj => ?_⟩
    exact hstrict j (lt_trans hj hlen) (by omega) hpj
  · exact find_closest_aux_none_iff (pcore_pass cfg s p) p s.pcore_MC 0
  · intro d i h
    obtain ⟨-, hlen, -, hdist, hmin, hstrict⟩ :=
      find_closest_aux_spec (fun _ => true) p s.outlier_MC 0 d i h
    rw [Nat.sub_zero] at hlen hdist
    refine ⟨hlen, hdist, fun j hj => hmin j hj rfl, fun j hj => ?_⟩
    exact hstrict j (lt_trans hj hlen) (by omega) rfl
  · unfold outlier_closest
    rw [find_closest_aux_none_iff (fun _ => true) p s.outlier_MC 0]
    constructor
    · intro h
      cases hl : s.outlier_MC with
      | nil => rfl
      | cons a l => exact absurd (h a (by rw [hl]; exact List.mem_cons_self a l)) (by simp)
    · intro h
      rw [h]
      intro c hc
      cases hc

/-! ### C8: per-batch threshold derivation -/

/-- C8 (amended): the batch-dependent thresholds as
`_set_dataset_dependent_parameters` derives them: the dimensionality is the
batch's column count, π falls back to the dimensionality exactly when the
configured π truncated to an integer (Python `int(float(...))`) is ≤ 0, ω is
the ω-multiplier times the previous batch's stored size (read before the
size is updated), the stored size becomes the new batch's row count, and μ
is the μ-multiplier times that new size. -/
theorem claim_C8 (cfg : Config) (s : HState) (input : Dataset) :
    (set_dataset_dependent_parameters cfg s input).dataset_dimensionality =
      input.cols ∧
    (set_dataset_dependent_parameters cfg s input).pi =
      (if pyint cfg.piCfg ≤ 0 then (input.cols : ℤ) else pyint cfg.piCfg) ∧
    (set_dataset_dependent_parameters cfg s input).omicron =
      cfg.omicronCfg * (s.dataset_size : ℚ) ∧
    (set_dataset_dependent_parameters cfg s input).dataset_size =
      input.rows.length ∧
    (set_dataset_dependent_parameters cfg s input).mu =
      cfg.muCfg * (input.rows.length : ℚ) :=
  ⟨rfl, rfl, rfl, rfl, rfl⟩

/-- Configuration for the C8 counterexample: π configured as 1/2 (a positive
value whose integer truncation is 0). -/
def cfgC8 : Config :=
  { epsilon := 1, beta := 1, k := 2, lambbda := 1, delta := 1/2,
    piCfg := 1/2, muCfg := 1, omicronCfg := 1 }

/-- A one-row, three-column batch for the C8 counterexample. -/
def dsC8 : Dataset := { rows := [[0, 0, 0]], cols := 3 }

/-- C8 fails on the code as stated: with π configured to 1/2 — strictly
positive, so the claim says no fallback — the code truncates it to 0 with
`int(float(...))` and falls back, leaving π equal to the dataset
dimensionality 3 (which no rounding of 1/2 can produce). -/
theorem claim_C8_counterexample :
    (set_dataset_dependent_parameters cfgC8 initState dsC8).pi =
      ((set_dataset_dependent_parameters cfgC8 initState
          dsC8).dataset_dimensionality : ℤ) ∧
    (set_dataset_dependent_parameters cfgC8 initState
        dsC8).dataset_dimensionality = 3 ∧
    0 < cfgC8.piCfg ∧ cfgC8.piCfg < 1 := by decide

/-! ### C9: the offline handoff payload -/

/-- Inserting a key that is absent just appends. -/
lemma dictInsert_of_not_mem (d : List (Nat × OfflineRecord)) (key : Nat)
    (v : OfflineRecord) (h : ∀ kv ∈ d, kv.1 ≠ key) :
    dictInsert d key v = d ++ [(key, v)] := by
  unfold dictInsert
  rw [if_neg (by
    simp only [List.any_eq_true, beq_iff_eq, not_exists, not_and]
    intro kv hkv
    exact h kv hkv)]

/-- Folding the payload builder over microclusters with pairwise distinct
first ids (all absent from the accumulator) appends one record per
microcluster, in order. -/
lemma offline_fold_nodup (cfg : Config) (s : HState) :
    ∀ (l : List Microcluster) (acc : List (Nat × OfflineRecord)),
      (∀ c ∈ l, ∀ kv ∈ acc, kv.1 ≠ c.id.headD 0) →
      (l.map (fun c => c.id.headD 0)).Nodup →
      l.foldl
          (fun d c => dictInsert d (c.id.headD 0) (offline_record cfg s c))
          acc =
        acc ++ l.map (fun c => (c.id.headD 0, offline_record cfg s c)) := by
  intro l
  induction l with
  | nil => intro acc _ _; simp
  | cons c l ih =>
      intro acc hfresh hnodup
      rw [List.foldl_cons,
        dictInsert_of_not_mem acc (c.id.headD 0) (offline_record cfg s c)
          (fun kv hkv => hfresh c (List.mem_cons_self c l) kv hkv)]
      rw [List.map_cons, List.nodup_cons] at hnodup
      rw [ih (acc ++ [(c.id.headD 0, offline_record cfg s c)]) ?_ hnodup.2]
      · simp
      · intro c2 hc2 kv hkv
        rcases List.mem_append.mp hkv with hkv | hkv
        · exact hfresh c2 (List.mem_cons_of_mem c hc2) kv hkv
        · rcases List.mem_singleton.mp hkv with rfl
          intro hEq
          have hEq2 : c.id.headD 0 = c2.id.headD 0 := hEq
          exact hnodup.1 (by
            rw [hEq2]
            exact List.mem_map.mpr ⟨c2, hc2, rfl⟩)

/-- Looking a microcluster's first id up in the full payload map finds that
microcluster's record, when first ids are pairwise distinct. -/
lemma lookup_offline_map (cfg : Config) (s : HState) :
    ∀ (l : List Microcluster),
      (l.map (fun c => c.id.headD 0)).Nodup →
      ∀ c ∈ l,
        List.lookup (c.id.headD 0)
            (l.map (fun c => (c.id.headD 0, offline_record cfg s c))) =
          some (offline_record cfg s c) := by
  intro l
  induction l with
  | nil => intro _ c hc; cases hc
  | cons a l ih =>
      intro hnodup c hc
      rw [List.map_cons, List.nodup_cons] at hnodup
      rcases List.mem_cons.mp hc with rfl | hc
      · simp [List.lookup]
      · rw [List.map_cons, List.lookup_cons]
        have hne : (c.id.headD 0 == a.id.headD 0) = false := by
          simp only [beq_eq_false_iff_ne, ne_eq]
          intro hEq
          exact hnodup.1 (by
            rw [← hEq]
            exact List.mem_map.mpr ⟨c, hc, rfl⟩)
        rw [hne]
        exact ih hnodup.2 c hc

/-- C9 (amended): when the potential-core microclusters' first identifiers
are pairwise distinct, the offline handoff payload holds exactly one record
per potential-core microcluster, keyed by its first identifier, carrying its
centroid, CF1, CF2, cumulative weight and its own `is_core` verdict (the
fields of `offline_record`); microclusters sharing a first identifier
collapse to one record (see the counterexample). -/
theorem claim_C9 (cfg : Config) (s : HState)
    (h : (s.pcore_MC.map (fun c => c.id.headD 0)).Nodup) :
    (offline_datapoints cfg s).length = s.pcore_MC.length ∧
    ∀ c ∈ s.pcore_MC,
      List.lookup (c.id.headD 0) (offline_datapoints cfg s) =
        some (offline_record cfg s c) := by
  have hfold : offline_datapoints cfg s =
      s.pcore_MC.map (fun c => (c.id.headD 0, offline_record cfg s c)) := by
    unfold offline_datapoints
    rw [offline_fold_nodup cfg s s.pcore_MC [] (fun c _ kv hkv => by cases hkv)
      h]
    simp
  rw [hfold]
  exact ⟨List.length_map _ _, lookup_offline_map cfg s s.pcore_MC h⟩

/-- A concrete state for the C9 witness: two potential-core microclusters
with distinct first ids 0 and 1. -/
def stW9 : HState :=
  { pi := 2, mu := 1, omicron := 0, pcore_MC := [mcW 1 0, mcW 1 1],
    outlier_MC := [], last_data_timestamp := 0, dataset_dimensionality := 1,
    dataset_size := 2, payload := [] }

/-- Witness for C9 at a concrete input with distinct ids: two records, one
per potential-core microcluster. -/
theorem claim_C9_witness :
    (offline_datapoints cfgBug stW9).length = stW9.pcore_MC.length :=
  (claim_C9 cfgBug stW9 (by decide)).1

/-- Configuration for the C9 counterexample run (μ-multiplier 2/5 so that a
weight of 2 reaches β·μ on the 5-point first batch and 3/2 stays above β·μ
on the 3-point second batch while 1 falls below it). -/
def cfgC9 : Config :=
  { epsilon := 1/10, beta := 1, k := 2, lambbda := 1, delta := 1/2,
    piCfg := 2, muCfg := 2/5, omicronCfg := 0 }

/-- Day-0 batch of the C9 counterexample: cluster A forms from two `[0,0]`
points and is upgraded with potential-core id 0, cluster B forms from three
`[2,1]` points and is upgraded with potential-core id 1. -/
def dsC9a : Dataset :=
  { rows := [[0, 0], [0, 0], [2, 1], [2, 1], [2, 1]], cols := 2 }

/-- Day-1 batch of the C9 counterexample: after decay A is downgraded (id
reassigned to 0), then the first `[0,0]` re-upgrades A to potential-core id
`[1]` — colliding with B's id — and the remaining points join A. -/
def dsC9b : Dataset := { rows := [[0, 0], [0, 0], [0, 0]], cols := 2 }

/-- C9 fails on the code as stated: after two reachable maintenance calls
the potential-core collection holds two microclusters, but both carry first
identifier 1, so the dict-building loop of `offline_clustering` overwrites
one record with the other and the payload holds a single record — one
potential-core microcluster is missing from the payload. -/
theorem claim_C9_counterexample :
    (online_microcluster_maintenance cfgC9 pow2half
        (online_microcluster_maintenance cfgC9 pow2half initState dsC9a 0
          true)
        dsC9b 1 true).pcore_MC.length = 2 ∧
    ((online_microcluster_maintenance cfgC9 pow2half
        (online_microcluster_maintenance cfgC9 pow2half initState dsC9a 0
          true)
        dsC9b 1 true).pcore_MC.map (fun c => c.id.headD 0)) = [1, 1] ∧
    (online_microcluster_maintenance cfgC9 pow2half
        (online_microcluster_maintenance cfgC9 pow2half initState dsC9a 0
          true)
        dsC9b 1 true).payload.length = 1 := by decide

/-! ### C10: reset_param = False leaves every threshold untouched -/

/-- Routing one point never touches the thresholds, the stored dataset
shape, the last processed daystamp or the payload. -/
lemma route_point_params (cfg : Config) (s : HState) (p : List ℚ) (t : ℤ) :
    (route_point cfg s p t).pi = s.pi ∧
    (route_point cfg s p t).mu = s.mu ∧
    (route_point cfg s p t).omicron = s.omicron ∧
    (route_point cfg s p t).dataset_dimensionality =
      s.dataset_dimensionality ∧
    (route_point cfg s p t).dataset_size = s.dataset_size ∧
    (route_point cfg s p t).last_data_timestamp = s.last_data_timestamp ∧
    (route_point cfg s p t).payload = s.payload := by
  rcases route_point_cases cfg s p t with ⟨i, c2, hEq⟩ | ⟨i, c2, hEq⟩ |
    ⟨i, c2, c3, hEq⟩ | ⟨c0, hEq⟩ <;> rw [hEq] <;>
    exact ⟨rfl, rfl, rfl, rfl, rfl, rfl, rfl⟩

/-- Routing a whole batch never touches those fields either. -/
lemma route_batch_params (cfg : Config) :
    ∀ (rows : List (List ℚ)) (s : HState) (t : ℤ),
    (route_batch cfg s rows t).pi = s.pi ∧
    (route_batch cfg s rows t).mu = s.mu ∧
    (route_batch cfg s rows t).omicron = s.omicron ∧
    (route_batch cfg s rows t).dataset_dimensionality =
      s.dataset_dimensionality ∧
    (route_batch cfg s rows t).dataset_size = s.dataset_size := by
  intro rows
  induction rows with
  | nil => intro s t; exact ⟨rfl, rfl, rfl, rfl, rfl⟩
  | cons p rows ih =>
      intro s t
      have hstep := route_point_params cfg s p t
      have hrest := ih (route_point cfg s p t) t
      unfold route_batch at hrest ⊢
      rw [List.foldl_cons]
      refine ⟨?_, ?_, ?_, ?_, ?_⟩
      · rw [hrest.1, hstep.1]
      · rw [hrest.2.1, hstep.2.1]
      · rw [hrest.2.2.1, hstep.2.2.1]
      · rw [hrest.2.2.2.1, hstep.2.2.2.1]
      · rw [hrest.2.2.2.2, hstep.2.2.2.2.1]

/-- The day-change block never touches those fields. -/
lemma pre_route_params (cfg : Config) (pow2 : ℚ → ℚ) (s : HState) (d : ℤ) :
    ((if s.last_data_timestamp - d ≠ 0 then
        decay_downgrade_reset cfg pow2 s d else s)).pi = s.pi ∧
    ((if s.last_data_timestamp - d ≠ 0 then
        decay_downgrade_reset cfg pow2 s d else s)).mu = s.mu ∧
    ((if s.last_data_timestamp - d ≠ 0 then
        decay_downgrade_reset cfg pow2 s d else s)).omicron = s.omicron ∧
    ((if s.last_data_timestamp - d ≠ 0 then
        decay_downgrade_reset cfg pow2 s d
      else s)).dataset_dimensionality = s.dataset_dimensionality ∧
    ((if s.last_data_timestamp - d ≠ 0 then
        decay_downgrade_reset cfg pow2 s d else s)).dataset_size =
      s.dataset_size := by
  by_cases h : s.last_data_timestamp - d ≠ 0
  · rw [if_pos h]
    exact ⟨rfl, rfl, rfl, rfl, rfl⟩
  · rw [if_neg h]
    exact ⟨rfl, rfl, rfl, rfl, rfl⟩

/-- C10: a maintenance call with `reset_param = False` leaves π, μ, ω, the
stored dataset dimensionality and the stored dataset size exactly as the
previous batch left them, while the decay gating, the point routing and the
offline handoff still run as usual (the call equals the handoff of the
routed, optionally decayed state with the new daystamp recorded). -/
theorem claim_C10 (cfg : Config) (pow2 : ℚ → ℚ) (s : HState)
    (input : Dataset) (d : ℤ) :
    (online_microcluster_maintenance cfg pow2 s input d false).pi = s.pi ∧
    (online_microcluster_maintenance cfg pow2 s input d false).mu = s.mu ∧
    (online_microcluster_maintenance cfg pow2 s input d false).omicron =
      s.omicron ∧
    (online_microcluster_maintenance cfg pow2 s input d
        false).dataset_dimensionality = s.dataset_dimensionality ∧
    (online_microcluster_maintenance cfg pow2 s input d
        false).dataset_size = s.dataset_size ∧
    online_microcluster_maintenance cfg pow2 s input d false =
      offline_clustering cfg
        { route_batch cfg
            (if s.last_data_timestamp - d ≠ 0 then
              decay_downgrade_reset cfg pow2 s d else s)
            input.rows d with
          last_data_timestamp := d } := by
  have hpre := pre_route_params cfg pow2 s d
  have hroute := route_batch_params cfg input.rows
    (if s.last_data_timestamp - d ≠ 0 then
      decay_downgrade_reset cfg pow2 s d else s) d
  have hmain : online_microcluster_maintenance cfg pow2 s input d false =
      offline_clustering cfg
        { route_batch cfg
            (if s.last_data_timestamp - d ≠ 0 then
              decay_downgrade_reset cfg pow2 s d else s)
            input.rows d with
          last_data_timestamp := d } := rfl
  refine ⟨?_, ?_, ?_, ?_, ?_, hmain⟩
  · rw [hmain]
    show (route_batch cfg _ input.rows d).pi = s.pi
    rw [hroute.1, hpre.1]
  · rw [hmain]
    show (route_batch cfg _ input.rows d).mu = s.mu
    rw [hroute.2.1, hpre.2.1]
  · rw [hmain]
    show (route_batch cfg _ input.rows d).omicron = s.omicron
    rw [hroute.2.2.1, hpre.2.2.1]
  · rw [hmain]
    show (route_batch cfg _ input.rows d).dataset_dimensionality =
      s.dataset_dimensionality
    rw [hroute.2.2.2.1, hpre.2.2.2.1]
  · rw [hmain]
    show (route_batch cfg _ input.rows d).dataset_size = s.dataset_size
    rw [hroute.2.2.2.2, hpre.2.2.2.2]

end Chronoclust
